import Mathlib

/-!
Verification of `simferm.py`, a fermentation-telemetry simulator.

The program resolves a parameter set (start/final temperature in °F,
original/final gravity, duration in minutes), converts the temperatures to
integer milli-degrees Celsius, and then runs one loop iteration per second:
each tick advances the temperature by a fixed linear increment, emits a log
line and an HTTP notification carrying the current (temperature, gravity)
pair, and then advances the gravity toward the lower of the two gravity
values, clamped there.  After the loop one extra notification and a two-line
log summary are emitted.

Real arithmetic is modelled over `ℚ` (the structural claims under
verification are about the exact linear recurrence, not about binary
floating-point rounding); Python's `int(...)` truncation toward zero is
modelled by `pyTrunc`.  A `ZeroDivisionError` (duration 0) is modelled by
`Option`: `runSim` returns `none` where the Python program dies with an
uncaught exception.
-/

namespace SimFerm

/-- Resolved simulation parameters (the relevant entries of `DEFAULTS` after
config-file and CLI merging): `starttemp`/`finaltemp` in °F, duration `time`
in minutes, and the two gravity readings `og`/`fg`. -/
structure Params where
  starttemp : ℚ
  finaltemp : ℚ
  time : ℕ
  og : ℚ
  fg : ℚ
  deriving Repr, DecidableEq

/-- Python `int(q)`: truncation toward zero. -/
def pyTrunc (q : ℚ) : ℤ := if 0 ≤ q then ⌊q⌋ else ⌈q⌉

/-- `int((f - 32) * 5/9 * 1000)` — °F to integer milli-degrees Celsius. -/
def toMilliC (f : ℚ) : ℤ := pyTrunc ((f - 32) * 5 / 9 * 1000)

/-- `t / 1000 * 9/5 + 32` — milli-degrees Celsius back to °F. -/
def milliCToF (t : ℚ) : ℚ := t / 1000 * 9 / 5 + 32

/-- `determine_direction`: `"down" if start_temp > end_temp else "up"`. -/
def determine_direction (s e : ℤ) : String := if s > e then "down" else "up"

/-- `start_temp` as first computed in `main` (before the loop mutates it). -/
def start_temp (p : Params) : ℤ := toMilliC p.starttemp

/-- `end_temp` in `main`. -/
def end_temp (p : Params) : ℤ := toMilliC p.finaltemp

/-- `number_of_changes = DEFAULTS['time'] * 60`. -/
def number_of_changes (p : Params) : ℕ := p.time * 60

/-- `temp_change_per_interval = total_temp_change / number_of_changes`. -/
def temp_change_per_interval (p : Params) : ℚ :=
  ((end_temp p - start_temp p : ℤ) : ℚ) / (number_of_changes p : ℚ)

/-- `gravity_change = (DEFAULTS['og'] - final_gravity) / number_of_changes`,
with `final_gravity = min(og, fg)` — note the numerator uses `og`, not
`max(og, fg)`. -/
def gravity_change (p : Params) : ℚ :=
  (p.og - min p.og p.fg) / (number_of_changes p : ℚ)

/-- One emitted sample: the °F temperature and the gravity carried by the
tick's log line and HTTP notification. -/
abbrev Emit := ℚ × ℚ

/-- Mutable loop state: `start_temp` (milli-°C, mutated in place by the
source) and `gravity`. -/
structure SimState where
  temp : ℚ
  gravity : ℚ
  deriving Repr, DecidableEq

/-- The `for i in range(number_of_changes)` loop of `main`, lines 155-182:
break when the target is reached, advance the temperature, emit the sample
(log line and curl share the same values: the advanced temperature, the
not-yet-advanced gravity), then advance the gravity clamped at `fgm`.
`fuel` is the remaining iteration count. -/
def simLoop (dir : String) (endT tci og fgm : ℚ) (steps : ℕ) :
    ℕ → SimState → List Emit × SimState
  | 0, st => ([], st)
  | fuel + 1, st =>
    if (dir = "up" ∧ endT ≤ st.temp) ∨ (dir = "down" ∧ st.temp ≤ endT) then
      ([], st)
    else
      let temp := if dir = "up" then st.temp + |tci| else st.temp - |tci|
      let gravity := max fgm (st.gravity - (og - fgm) / (steps : ℚ))
      let next := simLoop dir endT tci og fgm steps fuel ⟨temp, gravity⟩
      ((milliCToF temp, st.gravity) :: next.1, next.2)

/-- The whole computation of `main` after parameter resolution: emitted
per-tick samples plus the final state.  `none` models the uncaught
`ZeroDivisionError` raised when `number_of_changes = 0` at the
`temp_change_per_interval` division (line 133, before the log file is even
opened). -/
def runSim (p : Params) : Option (List Emit × SimState) :=
  if number_of_changes p = 0 then none
  else
    some (simLoop (determine_direction (start_temp p) (end_temp p))
      ((end_temp p : ℚ)) (temp_change_per_interval p) p.og (min p.og p.fg)
      (number_of_changes p) (number_of_changes p)
      ⟨((start_temp p : ℚ)), max p.og p.fg⟩)

/-- The per-tick samples of a run (empty when the run dies at startup). -/
def runEmits (p : Params) : List Emit :=
  match runSim p with
  | none => []
  | some z => z.1

/-- All notification+log emission pairs of a run: one per loop tick plus the
final summary pair (lines 184-188). -/
def runPairs (p : Params) : List Emit :=
  match runSim p with
  | none => []
  | some z => z.1 ++ [(milliCToF z.2.temp, z.2.gravity)]

/-- All gravity values emitted over a run, final summary included. -/
def runGravs (p : Params) : List ℚ :=
  match runSim p with
  | none => []
  | some z => z.1.map Prod.snd ++ [z.2.gravity]

/-- Rounding to one decimal, as the `:.1f` log format renders temperatures. -/
def roundTo1 (q : ℚ) : ℚ := (⌊10 * q + 1 / 2⌋ : ℚ) / 10

/-- The temperature (milli-°C) after `m` ticks: the loop adds the signed
increment once per tick. -/
def tickTemp (p : Params) (m : ℕ) : ℚ :=
  (start_temp p : ℚ) + (m : ℚ) * temp_change_per_interval p

/-- The gravity after `m` decrements, clamped at `min(og, fg)`. -/
def tickGrav (p : Params) (m : ℕ) : ℚ :=
  max (min p.og p.fg) (max p.og p.fg - (m : ℚ) * gravity_change p)

/-- The four kinds of lines `update_log` can write, named after the event
text each format string carries. -/
inductive LogLine
  | simulationStarting (tempF gravity : ℚ)
  | currentReading (tempF gravity : ℚ)
  | simulationAtStart (startTempF og : ℚ)
  | simulationComplete (tempF gravity : ℚ)
  deriving Repr, DecidableEq

/-- `update_log` (lines 41-64): the `is_start` branch writes one
"Simulation Starting" line; the `is_end` branch writes TWO lines (a
"Simulation at Start" recap, then the shared write emits the
"Simulation Complete" line); otherwise one "Current Temperature" line. -/
def update_log (tempF gravity startTempF og : ℚ) (is_start is_end : Bool) :
    List LogLine :=
  if is_start then [.simulationStarting tempF gravity]
  else if is_end then
    [.simulationAtStart startTempF og, .simulationComplete tempF gravity]
  else [.currentReading tempF gravity]

/-- The full log of a run: the start line (line 152), one line per tick
(line 169), and the end summary (line 188).  Empty when the program dies
before the log file is opened. -/
def runLog (p : Params) : List LogLine :=
  match runSim p with
  | none => []
  | some z =>
      update_log (milliCToF ((start_temp p : ℚ))) (max p.og p.fg)
          p.starttemp p.og true false
        ++ z.1.flatMap (fun em => update_log em.1 em.2 p.starttemp p.og false false)
        ++ update_log (milliCToF z.2.temp) z.2.gravity p.starttemp p.og false true

/-- Is this a "Simulation Starting" line? -/
def isStartLine : LogLine → Bool
  | .simulationStarting _ _ => true
  | _ => false

/-- Is this a "Simulation Complete" line? -/
def isCompleteLine : LogLine → Bool
  | .simulationComplete _ _ => true
  | _ => false

/-- Drop from a list the elements at absolute positions (starting at `i`)
where `fails` is `true`: the output a sequence of fallible writes leaves
behind when the failed ones are swallowed. -/
def keepIdx {α : Type} (fails : ℕ → Bool) : ℕ → List α → List α
  | _, [] => []
  | i, a :: l => if fails i then keepIdx fails (i + 1) l
                 else a :: keepIdx fails (i + 1) l

/-- The simulation loop with fallible sinks: `lf i` / `cf i` say whether
the tick-`i` log write / curl call raises.  `update_log` and
`execute_curl_command` swallow the exception (print and continue), so a
failure loses only that write; state and control flow are untouched. -/
def simLoopF (lf cf : ℕ → Bool) (dir : String) (endT tci og fgm : ℚ)
    (steps : ℕ) : ℕ → ℕ → SimState → List LogLine × List Emit × SimState
  | _, 0, st => ([], [], st)
  | i, fuel + 1, st =>
    if (dir = "up" ∧ endT ≤ st.temp) ∨ (dir = "down" ∧ st.temp ≤ endT) then
      ([], [], st)
    else
      let temp := if dir = "up" then st.temp + |tci| else st.temp - |tci|
      let logs := if lf i then [] else [LogLine.currentReading (milliCToF temp) st.gravity]
      let curls := if cf i then [] else [((milliCToF temp, st.gravity) : Emit)]
      let gravity := max fgm (st.gravity - (og - fgm) / (steps : ℚ))
      let next := simLoopF lf cf dir endT tci og fgm steps (i + 1) fuel ⟨temp, gravity⟩
      (logs ++ next.1, curls ++ next.2.1, next.2.2)

/-- The whole run with fallible sinks: `sf` is a failing start-line write,
`ef` a failing end-summary write, `ecf` a failing final curl. -/
def runRunF (p : Params) (sf ef ecf : Bool) (lf cf : ℕ → Bool) :
    Option (List LogLine × List Emit × SimState) :=
  if number_of_changes p = 0 then none
  else
    let z := simLoopF lf cf (determine_direction (start_temp p) (end_temp p))
      ((end_temp p : ℚ)) (temp_change_per_interval p) p.og (min p.og p.fg)
      (number_of_changes p) 0 (number_of_changes p)
      ⟨((start_temp p : ℚ)), max p.og p.fg⟩
    some
      ((if sf then [] else
          update_log (milliCToF ((start_temp p : ℚ))) (max p.og p.fg)
            p.starttemp p.og true false)
         ++ z.1
         ++ (if ef then [] else
              update_log (milliCToF z.2.2.temp) z.2.2.gravity p.starttemp p.og false true),
       z.2.1 ++ (if ecf then [] else [((milliCToF z.2.2.temp, z.2.2.gravity) : Emit)]),
       z.2.2)

/-- The config-file keys `read_config_file` can override. -/
structure ConfigPatch where
  starttemp : Option ℚ := none
  finaltemp : Option ℚ := none
  time : Option ℕ := none
  og : Option ℚ := none
  fg : Option ℚ := none
  deriving Repr, DecidableEq

/-- `read_config_file` (lines 76-85): a missing file (`none` contents) is
silently `None`; a YAML parse error is printed and `None`; otherwise the
parsed mapping. -/
def read_config_file : Option (Except String ConfigPatch) → Option ConfigPatch
  | none => none
  | some (Except.error _) => none
  | some (Except.ok c) => some c

/-- `if config_data: DEFAULTS.update(config_data)` (lines 116-117). -/
def applyConfig (d : Params) : Option ConfigPatch → Params
  | none => d
  | some c =>
      { starttemp := c.starttemp.getD d.starttemp
        finaltemp := c.finaltemp.getD d.finaltemp
        time := c.time.getD d.time
        og := c.og.getD d.og
        fg := c.fg.getD d.fg }

/-- `generate_random_temp_increment` (lines 37-39): draws one value from
the process RNG (`random.uniform(0.000, 0.099)`), modelled by an abstract
sampler over an RNG-state type. -/
def generate_random_temp_increment {σ : Type} (sample : σ → ℚ × σ) (s : σ) :
    ℚ × σ :=
  sample s

/-- The simulation loop with the process RNG state threaded through.  The
loop body (lines 155-182) never draws from the RNG, so the state passes
through every tick untouched. -/
def simLoopR {σ : Type} (sample : σ → ℚ × σ) (dir : String)
    (endT tci og fgm : ℚ) (steps : ℕ) :
    ℕ → SimState → σ → List Emit × SimState × σ
  | 0, st, r => ([], st, r)
  | fuel + 1, st, r =>
    if (dir = "up" ∧ endT ≤ st.temp) ∨ (dir = "down" ∧ st.temp ≤ endT) then
      ([], st, r)
    else
      let temp := if dir = "up" then st.temp + |tci| else st.temp - |tci|
      let gravity := max fgm (st.gravity - (og - fgm) / (steps : ℚ))
      let next := simLoopR sample dir endT tci og fgm steps fuel ⟨temp, gravity⟩ r
      ((milliCToF temp, st.gravity) :: next.1, next.2)

/-- `runSim` with the RNG state made explicit. -/
def runSimR {σ : Type} (p : Params) (sample : σ → ℚ × σ) (r : σ) :
    Option (List Emit × SimState × σ) :=
  if number_of_changes p = 0 then none
  else
    some (simLoopR sample (determine_direction (start_temp p) (end_temp p))
      ((end_temp p : ℚ)) (temp_change_per_interval p) p.og (min p.og p.fg)
      (number_of_changes p) (number_of_changes p)
      ⟨((start_temp p : ℚ)), max p.og p.fg⟩ r)

/-- The `DEFAULTS` parameter set with a 1-minute duration: OG=1.0615,
FG=1.015, 101.3 °F down to 55.3 °F. -/
def p9 : Params := ⟨101.3, 55.3, 1, 1.0615, 1.015⟩

/-- Same temperatures, but the gravity labels swapped: OG=1.015 below
FG=1.0615. -/
def pSwap : Params := ⟨101.3, 55.3, 1, 1.015, 1.0615⟩

/-- A warming run: 32 °F up to 50 °F over 1 minute. -/
def pUp : Params := ⟨32, 50, 1, 2, 1⟩

theorem simLoop_step_up (endT tci og fgm : ℚ) (steps fuel : ℕ) (st : SimState)
    (hnr : ¬(endT ≤ st.temp)) :
    simLoop "up" endT tci og fgm steps (fuel + 1) st =
      ((milliCToF (st.temp + |tci|), st.gravity) ::
        (simLoop "up" endT tci og fgm steps fuel
          ⟨st.temp + |tci|, max fgm (st.gravity - (og - fgm) / (steps : ℚ))⟩).1,
       (simLoop "up" endT tci og fgm steps fuel
          ⟨st.temp + |tci|, max fgm (st.gravity - (og - fgm) / (steps : ℚ))⟩).2) := by
  simp [simLoop, hnr]

theorem simLoop_step_down (endT tci og fgm : ℚ) (steps fuel : ℕ) (st : SimState)
    (hnr : ¬(st.temp ≤ endT)) :
    simLoop "down" endT tci og fgm steps (fuel + 1) st =
      ((milliCToF (st.temp - |tci|), st.gravity) ::
        (simLoop "down" endT tci og fgm steps fuel
          ⟨st.temp - |tci|, max fgm (st.gravity - (og - fgm) / (steps : ℚ))⟩).1,
       (simLoop "down" endT tci og fgm steps fuel
          ⟨st.temp - |tci|, max fgm (st.gravity - (og - fgm) / (steps : ℚ))⟩).2) := by
  simp [simLoop, hnr]

theorem simLoop_break (dir : String) (endT tci og fgm : ℚ) (steps fuel : ℕ) (st : SimState)
    (hr : (dir = "up" ∧ endT ≤ st.temp) ∨ (dir = "down" ∧ st.temp ≤ endT)) :
    simLoop dir endT tci og fgm steps (fuel + 1) st = ([], st) := by
  simp only [simLoop]
  rw [if_pos hr]

theorem milliCToF_mono {a b : ℚ} (h : a ≤ b) : milliCToF a ≤ milliCToF b := by
  unfold milliCToF
  have h9 : (0:ℚ) ≤ 9 / 5000 := by norm_num
  have := mul_le_mul_of_nonneg_right h h9
  linarith

theorem max_sub_clamp {a g c : ℚ} (hc : 0 ≤ c) :
    max a (max a g - c) = max a (g - c) := by
  rcases le_total g a with h | h
  · rw [max_eq_left h, max_eq_left (by linarith), max_eq_left (by linarith)]
  · rw [max_eq_right h]

theorem gravity_change_nonneg (p : Params) : 0 ≤ gravity_change p := by
  unfold gravity_change
  apply div_nonneg
  · simp [sub_nonneg, min_le_left]
  · exact Nat.cast_nonneg _

theorem tickTemp_succ (p : Params) (j : ℕ) :
    tickTemp p (j + 1) = tickTemp p j + temp_change_per_interval p := by
  unfold tickTemp
  push_cast
  ring

theorem tickGrav_succ (p : Params) (j : ℕ) :
    max (min p.og p.fg) (tickGrav p j - gravity_change p) = tickGrav p (j + 1) := by
  unfold tickGrav
  rw [max_sub_clamp (gravity_change_nonneg p)]
  congr 1
  push_cast
  ring

theorem tickTemp_last (p : Params) (hst : number_of_changes p ≠ 0) :
    tickTemp p (number_of_changes p) = (end_temp p : ℚ) := by
  have hq : ((number_of_changes p : ℚ)) ≠ 0 := Nat.cast_ne_zero.mpr hst
  unfold tickTemp temp_change_per_interval
  push_cast
  field_simp

theorem simLoop_run (p : Params) (hst : number_of_changes p ≠ 0)
    (hne : start_temp p ≠ end_temp p) :
    ∀ fuel j : ℕ, j + fuel = number_of_changes p →
      simLoop (determine_direction (start_temp p) (end_temp p)) ((end_temp p : ℚ))
          (temp_change_per_interval p) p.og (min p.og p.fg)
          (number_of_changes p) fuel ⟨tickTemp p j, tickGrav p j⟩ =
        ((List.range fuel).map
            (fun k => ((milliCToF (tickTemp p (j + k + 1)), tickGrav p (j + k)) : Emit)),
         ⟨(end_temp p : ℚ), tickGrav p (number_of_changes p)⟩) := by
  have hq : ((number_of_changes p : ℚ)) ≠ 0 := Nat.cast_ne_zero.mpr hst
  have hq0 : (0:ℚ) < ((number_of_changes p : ℚ)) :=
    Nat.cast_pos.mpr (Nat.pos_of_ne_zero hst)
  intro fuel
  induction fuel with
  | zero =>
    intro j hj
    have hj' : j = number_of_changes p := by omega
    subst hj'
    simp only [simLoop, List.range_zero, List.map_nil]
    rw [tickTemp_last p hst]
  | succ fuel ih =>
    intro j hj
    have hjlt : j < number_of_changes p := by omega
    have hjq : ((j : ℚ)) < ((number_of_changes p : ℚ)) := by exact_mod_cast hjlt
    have hgc : (p.og - min p.og p.fg) / ((number_of_changes p : ℚ)) = gravity_change p := rfl
    rcases lt_or_gt_of_ne hne with hlt | hgt
    · -- warming: direction "up", increment nonnegative
      have hdir : determine_direction (start_temp p) (end_temp p) = "up" := by
        unfold determine_direction
        rw [if_neg (not_lt.mpr hlt.le)]
      have hcast : ((start_temp p : ℚ)) < ((end_temp p : ℚ)) := by exact_mod_cast hlt
      have htci : 0 ≤ temp_change_per_interval p := by
        unfold temp_change_per_interval
        push_cast
        exact div_nonneg (by linarith) hq0.le
      have hkey : tickTemp p j < (end_temp p : ℚ) := by
        unfold tickTemp temp_change_per_interval
        push_cast
        have h1 : ((j : ℚ)) * (((end_temp p : ℚ) - (start_temp p : ℚ)) / ((number_of_changes p : ℚ)))
            < ((number_of_changes p : ℚ)) * (((end_temp p : ℚ) - (start_temp p : ℚ)) / ((number_of_changes p : ℚ))) :=
          mul_lt_mul_of_pos_right hjq (div_pos (by linarith) hq0)
        have h2 : ((number_of_changes p : ℚ)) * (((end_temp p : ℚ) - (start_temp p : ℚ)) / ((number_of_changes p : ℚ)))
            = (end_temp p : ℚ) - (start_temp p : ℚ) := by field_simp
        linarith
      rw [hdir] at ih ⊢
      rw [simLoop_step_up _ _ _ _ _ _ _ (not_le.mpr hkey)]
      rw [abs_of_nonneg htci, ← tickTemp_succ, hgc, tickGrav_succ]
      rw [ih (j + 1) (by omega)]
      rw [List.range_succ_eq_map, List.map_cons, List.map_map]
      refine congrArg (fun l => (_ :: l, _)) ?_
      refine List.map_congr_left fun k _ => ?_
      have e1 : j + 1 + k + 1 = j + (k + 1) + 1 := by omega
      have e2 : j + 1 + k = j + (k + 1) := by omega
      simp only [Function.comp_apply, e1, e2]
    · -- cooling: direction "down", increment nonpositive
      have hdir : determine_direction (start_temp p) (end_temp p) = "down" := by
        unfold determine_direction
        rw [if_pos hgt]
      have hcast : ((end_temp p : ℚ)) < ((start_temp p : ℚ)) := by exact_mod_cast hgt
      have htci : temp_change_per_interval p ≤ 0 := by
        unfold temp_change_per_interval
        push_cast
        exact div_nonpos_of_nonpos_of_nonneg (by linarith) hq0.le
      have hkey : (end_temp p : ℚ) < tickTemp p j := by
        unfold tickTemp temp_change_per_interval
        push_cast
        have h1 : ((number_of_changes p : ℚ)) * (((end_temp p : ℚ) - (start_temp p : ℚ)) / ((number_of_changes p : ℚ)))
            < ((j : ℚ)) * (((end_temp p : ℚ) - (start_temp p : ℚ)) / ((number_of_changes p : ℚ))) :=
          mul_lt_mul_of_neg_right hjq (div_neg_of_neg_of_pos (by linarith) hq0)
        have h2 : ((number_of_changes p : ℚ)) * (((end_temp p : ℚ) - (start_temp p : ℚ)) / ((number_of_changes p : ℚ)))
            = (end_temp p : ℚ) - (start_temp p : ℚ) := by field_simp
        linarith
      rw [hdir] at ih ⊢
      rw [simLoop_step_down _ _ _ _ _ _ _ (not_le.mpr hkey)]
      rw [abs_of_nonpos htci, sub_neg_eq_add, ← tickTemp_succ, hgc, tickGrav_succ]
      rw [ih (j + 1) (by omega)]
      rw [List.range_succ_eq_map, List.map_cons, List.map_map]
      refine congrArg (fun l => (_ :: l, _)) ?_
      refine List.map_congr_left fun k _ => ?_
      have e1 : j + 1 + k + 1 = j + (k + 1) + 1 := by omega
      have e2 : j + 1 + k = j + (k + 1) := by omega
      simp only [Function.comp_apply, e1, e2]

theorem tickTemp_zero (p : Params) : tickTemp p 0 = (start_temp p : ℚ) := by
  unfold tickTemp
  push_cast
  ring

theorem tickGrav_zero (p : Params) : tickGrav p 0 = max p.og p.fg := by
  unfold tickGrav
  push_cast
  rw [zero_mul, sub_zero]
  exact max_eq_right min_le_max

theorem runSim_run (p : Params) (hst : number_of_changes p ≠ 0)
    (hne : start_temp p ≠ end_temp p) :
    runSim p = some ((List.range (number_of_changes p)).map
        (fun k => ((milliCToF (tickTemp p (k + 1)), tickGrav p k) : Emit)),
      ⟨(end_temp p : ℚ), tickGrav p (number_of_changes p)⟩) := by
  have h0 := simLoop_run p hst hne (number_of_changes p) 0 (by omega)
  unfold runSim
  rw [if_neg hst]
  rw [← tickTemp_zero, ← tickGrav_zero, h0]
  refine congrArg some (congrArg (fun l => (l, _)) ?_)
  refine List.map_congr_left fun k _ => ?_
  simp only [Nat.zero_add]

theorem runSim_flat (p : Params) (hst : number_of_changes p ≠ 0)
    (heq : start_temp p = end_temp p) :
    runSim p = some ([], ⟨(start_temp p : ℚ), max p.og p.fg⟩) := by
  unfold runSim
  rw [if_neg hst]
  obtain ⟨m, hm⟩ : ∃ m, number_of_changes p = m + 1 :=
    ⟨number_of_changes p - 1, by omega⟩
  rw [hm]
  have hdir : determine_direction (start_temp p) (end_temp p) = "up" := by
    unfold determine_direction
    rw [if_neg (by omega)]
  rw [hdir]
  have hle : ((end_temp p : ℚ)) ≤ ((start_temp p : ℚ)) := by exact_mod_cast heq.ge
  rw [simLoop_break "up" ((end_temp p : ℚ)) (temp_change_per_interval p) p.og
    (min p.og p.fg) (m + 1) m
    ⟨((start_temp p : ℚ)), max p.og p.fg⟩ (Or.inl ⟨rfl, hle⟩)]

theorem runSim_none (p : Params) (hst : number_of_changes p = 0) :
    runSim p = none := by
  unfold runSim
  rw [if_pos hst]

theorem runEmits_run (p : Params) (hst : number_of_changes p ≠ 0)
    (hne : start_temp p ≠ end_temp p) :
    runEmits p = (List.range (number_of_changes p)).map
      (fun k => ((milliCToF (tickTemp p (k + 1)), tickGrav p k) : Emit)) := by
  unfold runEmits
  rw [runSim_run p hst hne]

theorem runEmits_flat (p : Params) (hst : number_of_changes p ≠ 0)
    (heq : start_temp p = end_temp p) : runEmits p = [] := by
  unfold runEmits
  rw [runSim_flat p hst heq]

theorem runEmits_none (p : Params) (hst : number_of_changes p = 0) :
    runEmits p = [] := by
  unfold runEmits
  rw [runSim_none p hst]

theorem tci_nonneg (p : Params) (h : start_temp p ≤ end_temp p) :
    0 ≤ temp_change_per_interval p := by
  unfold temp_change_per_interval
  push_cast
  apply div_nonneg _ (Nat.cast_nonneg _)
  have hc : ((start_temp p : ℚ)) ≤ ((end_temp p : ℚ)) := by exact_mod_cast h
  linarith

theorem tci_nonpos (p : Params) (h : end_temp p ≤ start_temp p) :
    temp_change_per_interval p ≤ 0 := by
  unfold temp_change_per_interval
  push_cast
  apply div_nonpos_of_nonpos_of_nonneg _ (Nat.cast_nonneg _)
  have hc : ((end_temp p : ℚ)) ≤ ((start_temp p : ℚ)) := by exact_mod_cast h
  linarith

theorem tickTemp_mono (p : Params) (htci : 0 ≤ temp_change_per_interval p)
    {a b : ℕ} (h : a ≤ b) : tickTemp p a ≤ tickTemp p b := by
  unfold tickTemp
  have hc : ((a : ℚ)) ≤ ((b : ℚ)) := by exact_mod_cast h
  have := mul_le_mul_of_nonneg_right hc htci
  linarith

theorem tickTemp_anti (p : Params) (htci : temp_change_per_interval p ≤ 0)
    {a b : ℕ} (h : a ≤ b) : tickTemp p b ≤ tickTemp p a := by
  unfold tickTemp
  have hc : ((a : ℚ)) ≤ ((b : ℚ)) := by exact_mod_cast h
  have := mul_le_mul_of_nonpos_right hc htci
  linarith

theorem tickGrav_anti (p : Params) {a b : ℕ} (h : a ≤ b) :
    tickGrav p b ≤ tickGrav p a := by
  unfold tickGrav
  apply max_le_max le_rfl
  apply sub_le_sub_left
  have hc : ((a : ℚ)) ≤ ((b : ℚ)) := by exact_mod_cast h
  exact mul_le_mul_of_nonneg_right hc (gravity_change_nonneg p)

theorem pyTrunc_mono {a b : ℚ} (h : a ≤ b) : pyTrunc a ≤ pyTrunc b := by
  unfold pyTrunc
  by_cases ha : 0 ≤ a
  · rw [if_pos ha, if_pos (le_trans ha h)]
    exact Int.floor_le_floor h
  · rw [if_neg ha]
    by_cases hb : 0 ≤ b
    · rw [if_pos hb]
      calc ⌈a⌉ ≤ 0 := Int.ceil_le.mpr (by push_cast; linarith [le_of_not_le ha])
        _ ≤ ⌊b⌋ := Int.floor_nonneg.mpr hb
    · rw [if_neg hb]
      exact Int.ceil_le_ceil h

theorem toMilliC_mono {a b : ℚ} (h : a ≤ b) : toMilliC a ≤ toMilliC b := by
  unfold toMilliC
  apply pyTrunc_mono
  linarith

/-- C2: for every pair of start and end temperatures, the per-tick
temperature sequence emitted by the loop is monotone in the direction of
the sign of `finaltemp - starttemp` and never passes beyond the end
temperature — the loop's clamp target `end_temp` (expressed in °F by
`milliCToF`). -/
theorem temperature_monotone_clamped (p : Params) :
    (p.starttemp ≤ p.finaltemp →
        List.Chain' (fun a b => a ≤ b) ((runEmits p).map Prod.fst) ∧
        ∀ t ∈ (runEmits p).map Prod.fst, t ≤ milliCToF ((end_temp p : ℚ))) ∧
    (p.finaltemp ≤ p.starttemp →
        List.Chain' (fun a b => b ≤ a) ((runEmits p).map Prod.fst) ∧
        ∀ t ∈ (runEmits p).map Prod.fst, milliCToF ((end_temp p : ℚ)) ≤ t) := by
  by_cases hst : number_of_changes p = 0
  · rw [runEmits_none p hst]
    simp
  by_cases heq : start_temp p = end_temp p
  · rw [runEmits_flat p hst heq]
    simp
  rw [runEmits_run p hst heq]
  obtain ⟨m, hm⟩ : ∃ m, number_of_changes p = m + 1 :=
    ⟨number_of_changes p - 1, by omega⟩
  constructor
  · intro hupF
    have hup : start_temp p ≤ end_temp p := toMilliC_mono hupF
    have htci := tci_nonneg p hup
    constructor
    · rw [List.map_map, List.chain'_map, hm, List.chain'_range_succ]
      intro i _
      simp only [Function.comp_apply]
      exact milliCToF_mono (tickTemp_mono p htci (by omega))
    · intro t ht
      simp only [List.map_map, List.mem_map, List.mem_range] at ht
      obtain ⟨k, hk, rfl⟩ := ht
      simp only [Function.comp_apply]
      apply milliCToF_mono
      rw [← tickTemp_last p hst]
      exact tickTemp_mono p htci (by omega)
  · intro hdownF
    have hdown : end_temp p ≤ start_temp p := toMilliC_mono hdownF
    have htci := tci_nonpos p hdown
    constructor
    · rw [List.map_map, List.chain'_map, hm, List.chain'_range_succ]
      intro i _
      simp only [Function.comp_apply]
      exact milliCToF_mono (tickTemp_anti p htci (by omega))
    · intro t ht
      simp only [List.map_map, List.mem_map, List.mem_range] at ht
      obtain ⟨k, hk, rfl⟩ := ht
      simp only [Function.comp_apply]
      apply milliCToF_mono
      rw [← tickTemp_last p hst]
      exact tickTemp_anti p htci (by omega)

theorem runGravs_run (p : Params) (hst : number_of_changes p ≠ 0)
    (hne : start_temp p ≠ end_temp p) :
    runGravs p = (List.range (number_of_changes p + 1)).map (tickGrav p) := by
  unfold runGravs
  rw [runSim_run p hst hne]
  simp only [List.map_map, List.range_succ, List.map_append, List.map_cons,
    List.map_nil]
  rfl

theorem runGravs_flat (p : Params) (hst : number_of_changes p ≠ 0)
    (heq : start_temp p = end_temp p) :
    runGravs p = [max p.og p.fg] := by
  unfold runGravs
  rw [runSim_flat p hst heq]
  rfl

/-- C5: the emitted gravity sequence starts at `max(og, fg)`, is monotone
non-increasing, and never goes below `min(og, fg)`. -/
theorem gravity_monotone_bounded (p : Params) (hst : number_of_changes p ≠ 0) :
    (runGravs p).head? = some (max p.og p.fg) ∧
    List.Chain' (fun a b => b ≤ a) (runGravs p) ∧
    ∀ g ∈ runGravs p, min p.og p.fg ≤ g := by
  by_cases heq : start_temp p = end_temp p
  · rw [runGravs_flat p hst heq]
    refine ⟨rfl, List.chain'_singleton _, ?_⟩
    intro g hg
    rw [List.mem_singleton] at hg
    subst hg
    exact min_le_max
  · rw [runGravs_run p hst heq]
    refine ⟨?_, ?_, ?_⟩
    · obtain ⟨m, hm⟩ : ∃ m, number_of_changes p = m + 1 :=
        ⟨number_of_changes p - 1, by omega⟩
      rw [hm]
      rw [List.range_succ_eq_map]
      simp only [List.map_cons, List.head?_cons]
      rw [tickGrav_zero]
    · rw [List.chain'_map, List.chain'_range_succ]
      intro i _
      exact tickGrav_anti p (by omega)
    · intro g hg
      simp only [List.mem_map, List.mem_range] at hg
      obtain ⟨k, hk, rfl⟩ := hg
      exact le_max_left _ _

theorem simLoop_length (dir : String) (endT tci og fgm : ℚ) (steps : ℕ) :
    ∀ (fuel : ℕ) (st : SimState),
      (simLoop dir endT tci og fgm steps fuel st).1.length ≤ fuel := by
  intro fuel
  induction fuel with
  | zero => intro st; simp [simLoop]
  | succ fuel ih =>
    intro st
    simp only [simLoop]
    split
    · simp
    · simpa using Nat.succ_le_succ (ih _)

/-- C7: counting notification+log pairs, a run emits at most one pair per
loop tick plus the single final summary pair: never more than
`time * 60 + 1`. -/
theorem emission_count_bound (p : Params) :
    (runPairs p).length ≤ p.time * 60 + 1 := by
  unfold runPairs
  by_cases hst : number_of_changes p = 0
  · rw [runSim_none p hst]
    simp
  · unfold runSim
    rw [if_neg hst]
    simp only [List.length_append, List.length_cons, List.length_nil]
    have := simLoop_length (determine_direction (start_temp p) (end_temp p))
      ((end_temp p : ℚ)) (temp_change_per_interval p) p.og (min p.og p.fg)
      (number_of_changes p) (number_of_changes p)
      ⟨((start_temp p : ℚ)), max p.og p.fg⟩
    have hn : number_of_changes p = p.time * 60 := rfl
    omega

/-- C3 (counterexample): with a 0-minute duration the program dies with an
uncaught `ZeroDivisionError` at the per-interval computation. -/
theorem zero_duration_dies :
    runSim ⟨101.3, 55.3, 0, 1.0615, 1.015⟩ = none := by
  apply runSim_none
  rfl

/-- C3 (amended): for every positive duration, once the parameters are
resolved the per-interval computation and the loop run to completion. -/
theorem positive_duration_completes (p : Params) (ht : 0 < p.time) :
    (runSim p).isSome = true := by
  unfold runSim
  rw [if_neg ?hn]
  case hn =>
    unfold number_of_changes
    omega
  rfl

theorem positive_duration_completes_witness :
    (runSim p9).isSome = true :=
  positive_duration_completes p9 (by decide)

theorem toMilliC_1013 : toMilliC (101.3 : ℚ) = 38500 := by
  unfold toMilliC pyTrunc
  rw [if_pos (by norm_num)]
  norm_num

theorem toMilliC_553 : toMilliC (55.3 : ℚ) = 12944 := by
  unfold toMilliC pyTrunc
  rw [if_pos (by norm_num)]
  norm_num [Int.floor_eq_iff]

theorem start_temp_p9 : start_temp p9 = 38500 := toMilliC_1013

theorem end_temp_p9 : end_temp p9 = 12944 := toMilliC_553

theorem hne_p9 : start_temp p9 ≠ end_temp p9 := by
  rw [start_temp_p9, end_temp_p9]
  decide

theorem start_temp_pSwap : start_temp pSwap = 38500 := toMilliC_1013

theorem end_temp_pSwap : end_temp pSwap = 12944 := toMilliC_553

theorem hne_pSwap : start_temp pSwap ≠ end_temp pSwap := by
  rw [start_temp_pSwap, end_temp_pSwap]
  decide

theorem min_p9 : min p9.og p9.fg = 203/200 := by
  rw [show p9.og = (1.0615 : ℚ) from rfl, show p9.fg = (1.015 : ℚ) from rfl]
  rw [min_eq_right (by norm_num)]
  norm_num

theorem max_p9 : max p9.og p9.fg = 2123/2000 := by
  rw [show p9.og = (1.0615 : ℚ) from rfl, show p9.fg = (1.015 : ℚ) from rfl]
  rw [max_eq_left (by norm_num)]
  norm_num

theorem gravity_change_p9 : gravity_change p9 = 31/40000 := by
  unfold gravity_change
  rw [min_p9, show p9.og = (1.0615 : ℚ) from rfl]
  norm_num [number_of_changes, p9]

theorem min_pSwap : min pSwap.og pSwap.fg = 203/200 := by
  rw [show pSwap.og = (1.015 : ℚ) from rfl, show pSwap.fg = (1.0615 : ℚ) from rfl]
  rw [min_eq_left (by norm_num)]
  norm_num

theorem max_pSwap : max pSwap.og pSwap.fg = 2123/2000 := by
  rw [show pSwap.og = (1.015 : ℚ) from rfl, show pSwap.fg = (1.0615 : ℚ) from rfl]
  rw [max_eq_right (by norm_num)]
  norm_num

theorem gravity_change_pSwap : gravity_change pSwap = 0 := by
  unfold gravity_change
  rw [min_pSwap, show pSwap.og = (1.015 : ℚ) from rfl]
  norm_num

theorem tci_p9 : temp_change_per_interval p9 = -6389/15 := by
  unfold temp_change_per_interval
  rw [start_temp_p9, end_temp_p9]
  norm_num [number_of_changes, p9]

/-- C1 (counterexample): with the gravity labels swapped (OG=1.015 below
FG=1.0615) the loop's per-tick decrement is `(og - min(og,fg))/steps = 0`,
not `(max - min)/steps = 31/40000`, and the run's final gravity stays at
`max(og,fg)` instead of moving to `min(og,fg)`. -/
theorem gravity_decrement_counterexample :
    gravity_change pSwap = 0 ∧
    (max pSwap.og pSwap.fg - min pSwap.og pSwap.fg)
        / ((number_of_changes pSwap : ℚ)) = 31/40000 ∧
    (0 : ℚ) ≠ 31/40000 ∧
    (runSim pSwap).map (fun z => z.2.gravity) = some (max pSwap.og pSwap.fg) ∧
    max pSwap.og pSwap.fg ≠ min pSwap.og pSwap.fg := by
  refine ⟨gravity_change_pSwap, ?_, by norm_num, ?_, ?_⟩
  · rw [max_pSwap, min_pSwap]
    norm_num [number_of_changes, pSwap]
  · rw [runSim_run pSwap (by decide) hne_pSwap]
    simp only [Option.map_some']
    congr 1
    unfold tickGrav
    rw [gravity_change_pSwap]
    rw [mul_zero, sub_zero]
    exact max_eq_right min_le_max
  · rw [max_pSwap, min_pSwap]
    norm_num

/-- C1 (amended): the loop's per-tick gravity decrement is
`(og - min(og,fg))/steps`.  When `fg ≤ og` this equals the claimed
`(max - min)/steps` and a full run drives the gravity from `max(og,fg)`
down to `min(og,fg)`; when `og < fg` the decrement is `0` and the gravity
never moves. -/
theorem gravity_decrement_amended (p : Params) :
    (p.fg ≤ p.og →
        gravity_change p
          = (max p.og p.fg - min p.og p.fg) / ((number_of_changes p : ℚ))) ∧
    (p.og ≤ p.fg → gravity_change p = 0) ∧
    (p.fg ≤ p.og → number_of_changes p ≠ 0 → start_temp p ≠ end_temp p →
        (runSim p).map (fun z => z.2.gravity) = some (min p.og p.fg)) := by
  refine ⟨?_, ?_, ?_⟩
  · intro h
    unfold gravity_change
    rw [max_eq_left h, min_eq_right h]
  · intro h
    unfold gravity_change
    rw [min_eq_left h, sub_self, zero_div]
  · intro h hst hne
    rw [runSim_run p hst hne]
    simp only [Option.map_some']
    congr 1
    unfold tickGrav
    have hgc : gravity_change p = (p.og - p.fg) / ((number_of_changes p : ℚ)) := by
      unfold gravity_change
      rw [min_eq_right h]
    have hq : ((number_of_changes p : ℚ)) ≠ 0 := Nat.cast_ne_zero.mpr hst
    have hmul : ((number_of_changes p : ℚ)) * gravity_change p = p.og - p.fg := by
      rw [hgc]
      field_simp
    rw [hmul, max_eq_left h, min_eq_right h]
    have : p.og - (p.og - p.fg) = p.fg := by ring
    rw [this, max_self]

theorem gravity_decrement_amended_witness :
    gravity_change p9
        = (max p9.og p9.fg - min p9.og p9.fg) / ((number_of_changes p9 : ℚ)) ∧
    (runSim p9).map (fun z => z.2.gravity) = some (min p9.og p9.fg) :=
  ⟨(gravity_decrement_amended p9).1 (by norm_num [p9]),
   (gravity_decrement_amended p9).2.2 (by norm_num [p9]) (by decide) hne_p9⟩

/-- C4 (amended): the emitted pair of tick `k` (0-based) carries the
temperature advanced `k+1` times — the state is advanced before the log
entry and notification — but the gravity advanced only `k` times: the
gravity is decremented after the tick's emissions, so each tick carries
the not-yet-decremented gravity. -/
theorem tick_carries_advanced_temp_stale_gravity (p : Params)
    (hst : number_of_changes p ≠ 0) (hne : start_temp p ≠ end_temp p)
    (k : ℕ) (hk : k < number_of_changes p) :
    (runEmits p)[k]? = some (milliCToF (tickTemp p (k + 1)), tickGrav p k) := by
  rw [runEmits_run p hst hne]
  rw [List.getElem?_map]
  simp [List.getElem?_range, hk]

theorem tick_carries_witness :
    (runEmits p9)[0]? = some (milliCToF (tickTemp p9 (0 + 1)), tickGrav p9 0) :=
  tick_carries_advanced_temp_stale_gravity p9 (by decide) hne_p9 0 (by decide)

/-- C4 (counterexample): on the first tick the emitted gravity equals the
start gravity `max(og, fg)` — zero decrements — not the claimed value after
one decrement. -/
theorem tick_gravity_counterexample :
    ((runEmits p9).map Prod.snd)[0]? = some (max p9.og p9.fg) ∧
    max p9.og p9.fg
      ≠ max (min p9.og p9.fg) (max p9.og p9.fg - 1 * gravity_change p9) := by
  constructor
  · rw [runEmits_run p9 (by decide) hne_p9]
    rw [List.map_map, List.getElem?_map]
    have h0 : 0 < number_of_changes p9 := by decide
    rw [show ((List.range (number_of_changes p9))[0]? = some 0) by
      simp [List.getElem?_range, h0]]
    simp only [Option.map_some', Function.comp_apply]
    rw [tickGrav_zero]
  · rw [max_p9, min_p9, gravity_change_p9]
    rw [max_eq_right (by norm_num)]
    norm_num

/-- C9 (counterexample): for OG=1.0615, FG=1.015, 101.3 °F → 55.3 °F over 1
minute, the final temperature value is exactly 34562/625 = 55.2992 °F, not
55.3 °F: the truncating °F→milli-°C conversion is not undone by the reverse
conversion.  (At the log's one-decimal precision it still prints as 55.3.) -/
theorem example_final_temp_counterexample :
    (runSim p9).map (fun z => milliCToF z.2.temp) = some (34562/625) ∧
    (34562/625 : ℚ) ≠ 55.3 := by
  constructor
  · rw [runSim_run p9 (by decide) hne_p9]
    simp only [Option.map_some']
    rw [show ((end_temp p9 : ℚ)) = 12944 by rw [end_temp_p9]; norm_num]
    unfold milliCToF
    norm_num
  · norm_num

/-- C9 (amended): the example run emits exactly 60 ticks, the first logged
temperature 2513333/25000 = 100.53332 °F is strictly below 101.3 °F, and
the final temperature is clamped at the converted target (12944 milli-°C,
exactly 55.2992 °F, which the one-decimal log format renders as 55.3). -/
theorem example_run_values :
    (runEmits p9).length = 60 ∧
    ((runEmits p9).map Prod.fst)[0]? = some (2513333/25000) ∧
    (2513333/25000 : ℚ) < 101.3 ∧
    (runSim p9).map (fun z => z.2.temp) = some ((end_temp p9 : ℚ)) ∧
    (runSim p9).map (fun z => milliCToF z.2.temp) = some (34562/625) ∧
    roundTo1 (34562/625) = 55.3 := by
  refine ⟨?_, ?_, by norm_num, ?_, ?_, ?_⟩
  · rw [runEmits_run p9 (by decide) hne_p9]
    simp only [List.length_map, List.length_range]
    decide
  · rw [runEmits_run p9 (by decide) hne_p9]
    rw [List.map_map, List.getElem?_map]
    have h0 : 0 < number_of_changes p9 := by decide
    rw [show ((List.range (number_of_changes p9))[0]? = some 0) by
      simp [List.getElem?_range, h0]]
    simp only [Option.map_some', Function.comp_apply]
    rw [show tickTemp p9 (0 + 1) = 38500 + 1 * (-6389/15) by
      unfold tickTemp
      rw [start_temp_p9, tci_p9]
      norm_num]
    unfold milliCToF
    norm_num
  · rw [runSim_run p9 (by decide) hne_p9]
    simp only [Option.map_some']
  · rw [runSim_run p9 (by decide) hne_p9]
    simp only [Option.map_some']
    rw [show ((end_temp p9 : ℚ)) = 12944 by rw [end_temp_p9]; norm_num]
    unfold milliCToF
    norm_num
  · unfold roundTo1
    norm_num [Int.floor_eq_iff]

theorem flatMap_singleton_map {α β : Type} (f : α → β) (l : List α) :
    l.flatMap (fun x => [f x]) = l.map f := by
  induction l with
  | nil => rfl
  | cons a l ih => simp [List.flatMap_cons, ih]

theorem runLog_shape (p : Params) (hst : number_of_changes p ≠ 0) :
    ∃ (mid : List LogLine) (lt lg : ℚ),
      runLog p =
        LogLine.simulationStarting (milliCToF ((start_temp p : ℚ))) (max p.og p.fg)
          :: (mid ++ [LogLine.simulationAtStart p.starttemp p.og,
                      LogLine.simulationComplete lt lg]) ∧
      ∀ a ∈ mid, ∃ t g, a = LogLine.currentReading t g := by
  obtain ⟨z, hz⟩ : ∃ z, runSim p = some z := by
    unfold runSim
    rw [if_neg hst]
    exact ⟨_, rfl⟩
  refine ⟨z.1.map (fun em => LogLine.currentReading em.1 em.2),
    milliCToF z.2.temp, z.2.gravity, ?_, ?_⟩
  · unfold runLog
    rw [hz]
    show update_log _ _ _ _ true false ++
        z.1.flatMap (fun em => update_log em.1 em.2 p.starttemp p.og false false) ++
        update_log _ _ _ _ false true = _
    rw [show ∀ a b c d : ℚ, update_log a b c d true false
        = [LogLine.simulationStarting a b] from fun _ _ _ _ => rfl]
    rw [show ∀ a b c d : ℚ, update_log a b c d false true
        = [LogLine.simulationAtStart c d, LogLine.simulationComplete a b]
        from fun _ _ _ _ => rfl]
    rw [show (fun em : Emit => update_log em.1 em.2 p.starttemp p.og false false)
        = fun em : Emit => [LogLine.currentReading em.1 em.2] from rfl]
    rw [flatMap_singleton_map]
    simp [List.append_assoc]
  · intro a ha
    obtain ⟨em, -, rfl⟩ := List.mem_map.mp ha
    exact ⟨em.1, em.2, rfl⟩

/-- C6: with any positive duration, the log holds exactly one
"Simulation Starting" line and exactly one "Simulation Complete" line; the
start line is the first line written and the complete line is the last.
(The final summary also writes its "Simulation at Start" recap line just
before the complete line; it is part of the end summary, not a start
line.) -/
theorem log_bounded_by_start_and_complete (p : Params)
    (hst : number_of_changes p ≠ 0) :
    (runLog p).countP isStartLine = 1 ∧
    (runLog p).countP isCompleteLine = 1 ∧
    ((runLog p).head?.map isStartLine) = some true ∧
    ((runLog p).getLast?.map isCompleteLine) = some true := by
  obtain ⟨mid, lt, lg, hlog, hmid⟩ := runLog_shape p hst
  have hmid0s : mid.countP isStartLine = 0 := by
    rw [List.countP_eq_zero]
    intro a ha
    obtain ⟨t, g, rfl⟩ := hmid a ha
    simp [isStartLine]
  have hmid0c : mid.countP isCompleteLine = 0 := by
    rw [List.countP_eq_zero]
    intro a ha
    obtain ⟨t, g, rfl⟩ := hmid a ha
    simp [isCompleteLine]
  refine ⟨?_, ?_, ?_, ?_⟩
  · rw [hlog]
    simp [List.countP_cons, List.countP_append, hmid0s, isStartLine]
  · rw [hlog]
    simp [List.countP_cons, List.countP_append, hmid0c, isCompleteLine]
  · rw [hlog]
    simp [isStartLine]
  · rw [hlog]
    rw [show LogLine.simulationStarting (milliCToF ((start_temp p : ℚ))) (max p.og p.fg)
          :: (mid ++ [LogLine.simulationAtStart p.starttemp p.og,
                      LogLine.simulationComplete lt lg])
        = (LogLine.simulationStarting (milliCToF ((start_temp p : ℚ))) (max p.og p.fg)
            :: (mid ++ [LogLine.simulationAtStart p.starttemp p.og]))
          ++ [LogLine.simulationComplete lt lg] by
      simp]
    rw [List.getLast?_concat]
    simp [isCompleteLine]

theorem log_bounded_witness :
    (runLog p9).countP isStartLine = 1 ∧
    (runLog p9).countP isCompleteLine = 1 ∧
    ((runLog p9).head?.map isStartLine) = some true ∧
    ((runLog p9).getLast?.map isCompleteLine) = some true :=
  log_bounded_by_start_and_complete p9 (by decide)

theorem simLoopF_eq (lf cf : ℕ → Bool) (dir : String) (endT tci og fgm : ℚ)
    (steps : ℕ) :
    ∀ (fuel i : ℕ) (st : SimState),
      simLoopF lf cf dir endT tci og fgm steps i fuel st =
        (keepIdx lf i ((simLoop dir endT tci og fgm steps fuel st).1.map
            (fun em => LogLine.currentReading em.1 em.2)),
         keepIdx cf i (simLoop dir endT tci og fgm steps fuel st).1,
         (simLoop dir endT tci og fgm steps fuel st).2) := by
  intro fuel
  induction fuel with
  | zero =>
    intro i st
    simp [simLoopF, simLoop, keepIdx]
  | succ fuel ih =>
    intro i st
    by_cases hc : (dir = "up" ∧ endT ≤ st.temp) ∨ (dir = "down" ∧ st.temp ≤ endT)
    · simp [simLoopF, simLoop, hc, keepIdx]
    · simp only [simLoopF, simLoop, if_neg hc]
      rw [ih (i + 1)]
      by_cases hlf : lf i <;> by_cases hcf : cf i <;>
        simp [keepIdx, hlf, hcf]

/-- C8: log-write failures and curl failures on any set of ticks (and on
the start line, end summary and final curl) are swallowed: the run still
reaches the end with the same state, the same control flow, and every
non-failed emission unchanged — a failure loses only its own write.  A
config-file parse error yields `None`, leaving the defaults unmodified. -/
theorem failures_swallowed_and_config_safe (p : Params) (sf ef ecf : Bool)
    (lf cf : ℕ → Bool) (d : Params) (msg : String) :
    runRunF p sf ef ecf lf cf = (runSim p).map (fun z =>
      ((if sf then [] else
          update_log (milliCToF ((start_temp p : ℚ))) (max p.og p.fg)
            p.starttemp p.og true false)
        ++ keepIdx lf 0 (z.1.map (fun em => LogLine.currentReading em.1 em.2))
        ++ (if ef then [] else
            update_log (milliCToF z.2.temp) z.2.gravity p.starttemp p.og false true),
       keepIdx cf 0 z.1 ++ (if ecf then [] else [((milliCToF z.2.temp, z.2.gravity) : Emit)]),
       z.2)) ∧
    applyConfig d (read_config_file (some (Except.error msg))) = d := by
  constructor
  · unfold runRunF runSim
    by_cases hst : number_of_changes p = 0
    · rw [if_pos hst, if_pos hst]
      rfl
    · rw [if_neg hst, if_neg hst]
      simp only [Option.map_some']
      rw [simLoopF_eq]
  · rfl

theorem simLoopR_eq {σ : Type} (sample : σ → ℚ × σ) (dir : String)
    (endT tci og fgm : ℚ) (steps : ℕ) :
    ∀ (fuel : ℕ) (st : SimState) (r : σ),
      simLoopR sample dir endT tci og fgm steps fuel st r =
        ((simLoop dir endT tci og fgm steps fuel st).1,
         (simLoop dir endT tci og fgm steps fuel st).2, r) := by
  intro fuel
  induction fuel with
  | zero =>
    intro st r
    rfl
  | succ fuel ih =>
    intro st r
    by_cases hc : (dir = "up" ∧ endT ≤ st.temp) ∨ (dir = "down" ∧ st.temp ≤ endT)
    · simp [simLoopR, simLoop, hc]
    · simp only [simLoopR, simLoop, if_neg hc]
      rw [ih]

/-- C10: the run is a deterministic function of the parameters — for any
sampler and any two RNG seeds the emitted value sequence is the same
(`runSim p`), and the RNG state comes back untouched: the loop never
invokes the random temperature increment generator. -/
theorem run_deterministic_no_random {σ : Type} (p : Params)
    (sample : σ → ℚ × σ) (r : σ) :
    runSimR p sample r = (runSim p).map (fun z => (z.1, z.2, r)) := by
  unfold runSimR runSim
  by_cases hst : number_of_changes p = 0
  · rw [if_pos hst, if_pos hst]
    rfl
  · rw [if_neg hst, if_neg hst]
    simp only [Option.map_some']
    rw [simLoopR_eq]

theorem toMilliC_32 : toMilliC (32 : ℚ) = 0 := by
  unfold toMilliC pyTrunc
  rw [if_pos (by norm_num)]
  norm_num

theorem toMilliC_50 : toMilliC (50 : ℚ) = 10000 := by
  unfold toMilliC pyTrunc
  rw [if_pos (by norm_num)]
  norm_num

theorem temperature_monotone_witness :
    List.Chain' (fun a b => a ≤ b) ((runEmits pUp).map Prod.fst) ∧
    ∀ t ∈ (runEmits pUp).map Prod.fst, t ≤ milliCToF ((end_temp pUp : ℚ)) :=
  (temperature_monotone_clamped pUp).1 (by norm_num [pUp])

theorem gravity_monotone_witness :
    (runGravs p9).head? = some (max p9.og p9.fg) ∧
    List.Chain' (fun a b => b ≤ a) (runGravs p9) ∧
    ∀ g ∈ runGravs p9, min p9.og p9.fg ≤ g :=
  gravity_monotone_bounded p9 (by decide)

end SimFerm
